import Mathlib

/-!
Verification of the authentication token component of the bug-tracker
application: token generation (`generateToken`), token verification
(`verifyToken`) from server/src/utils/auth.js, and the bearer-token
middleware (`authMiddleware`) from server/src/middleware/auth.js.

JavaScript strings are modelled as Lean strings (lists of Unicode scalar
values); Node byte buffers as lists of naturals below 256; JSON values as
the inductive type `Json`.  Floating-point JSON numbers are outside the
model: the JSON parser only accepts integer numerals (every number the
application serializes or reads is an integer timestamp).  The ambient
inputs of the JavaScript code (process.env.JWT_SECRET and Date.now()) are
passed as explicit parameters.
-/

namespace MernAuth

/-- A JavaScript value produced by JSON.parse / consumed by JSON.stringify.
Numbers are modelled as integers (see module comment). -/
inductive Json where
  | null
  | bool (value : Bool)
  | num (value : Int)
  | str (value : String)
  | arr (items : List Json)
  | obj (pairs : List (String × Json))

/-! ### UTF-8 (Buffer.from(string) / buffer.toString()) -/

/-- UTF-8 encoding of a single Unicode scalar value, as bytes. -/
def utf8EncodeChar (c : Char) : List Nat :=
  let n := c.toNat
  if n < 128 then [n]
  else if n < 2048 then [192 + n / 64, 128 + n % 64]
  else if n < 65536 then [224 + n / 4096, 128 + n / 64 % 64, 128 + n % 64]
  else [240 + n / 262144, 128 + n / 4096 % 64, 128 + n / 64 % 64, 128 + n % 64]

/-- UTF-8 encoding of a character list. -/
def utf8Encode : List Char → List Nat
  | [] => []
  | c :: cs => utf8EncodeChar c ++ utf8Encode cs

/-- The bytes of a JavaScript string (Buffer.from(s)). -/
def strBytes (s : String) : List Nat := utf8Encode s.data

/-- The Unicode replacement character U+FFFD, emitted by buffer.toString()
for bytes that are not valid UTF-8. -/
def replChar : Char := Char.ofNat 65533

/-- Decode one UTF-8 character: first byte `b`, remaining bytes `bs`.
Returns the decoded character and the not-yet-consumed bytes; on an invalid
sequence, emits U+FFFD and consumes just the first byte. -/
def utf8DecodeOne (b : Nat) (bs : List Nat) : Char × List Nat :=
  if b < 128 then (Char.ofNat b, bs)
  else if b < 194 then (replChar, bs)
  else if b < 224 then
    match bs with
    | b2 :: rest =>
      if 128 ≤ b2 ∧ b2 < 192 then (Char.ofNat ((b - 192) * 64 + (b2 - 128)), rest)
      else (replChar, bs)
    | [] => (replChar, bs)
  else if b < 240 then
    match bs with
    | b2 :: b3 :: rest =>
      let n := (b - 224) * 4096 + (b2 - 128) * 64 + (b3 - 128)
      if (128 ≤ b2 ∧ b2 < 192) ∧ (128 ≤ b3 ∧ b3 < 192) ∧ 2048 ≤ n ∧
          ¬ (55296 ≤ n ∧ n ≤ 57343) then
        (Char.ofNat n, rest)
      else (replChar, bs)
    | _ => (replChar, bs)
  else if b < 245 then
    match bs with
    | b2 :: b3 :: b4 :: rest =>
      let n := (b - 240) * 262144 + (b2 - 128) * 4096 + (b3 - 128) * 64 + (b4 - 128)
      if (128 ≤ b2 ∧ b2 < 192) ∧ (128 ≤ b3 ∧ b3 < 192) ∧ (128 ≤ b4 ∧ b4 < 192) ∧
          65536 ≤ n ∧ n < 1114112 then
        (Char.ofNat n, rest)
      else (replChar, bs)
    | _ => (replChar, bs)
  else (replChar, bs)

/-- Fuel-indexed UTF-8 decoding loop; `fuel` bounds the number of decoded
characters (one byte is consumed per character at minimum, so the byte
count is always enough fuel). -/
def utf8DecodeAux : Nat → List Nat → List Char
  | 0, _ => []
  | _ + 1, [] => []
  | fuel + 1, b :: bs =>
    let (c, rest) := utf8DecodeOne b bs
    c :: utf8DecodeAux fuel rest

/-- buffer.toString(): decode bytes as UTF-8, with U+FFFD for invalid
sequences. -/
def bytesToStr (bs : List Nat) : String :=
  String.mk (utf8DecodeAux bs.length bs)

/-! ### Base64 (buffer.toString(base64) / Buffer.from(s, base64)) -/

/-- The standard base64 alphabet, by 6-bit value. -/
def base64Char (v : Nat) : Char :=
  if v < 26 then Char.ofNat (65 + v)
  else if v < 52 then Char.ofNat (97 + (v - 26))
  else if v < 62 then Char.ofNat (48 + (v - 52))
  else if v = 62 then Char.ofNat 43
  else Char.ofNat 47

/-- The padding character of base64. -/
def padChar : Char := Char.ofNat 61

/-- Six-bit value of one base64 character; Node's decoder accepts both the
standard and the url-safe alphabet and skips every other character. -/
def base64CharVal (c : Char) : Option Nat :=
  let n := c.toNat
  if 65 ≤ n ∧ n ≤ 90 then some (n - 65)
  else if 97 ≤ n ∧ n ≤ 122 then some (n - 97 + 26)
  else if 48 ≤ n ∧ n ≤ 57 then some (n - 48 + 52)
  else if n = 43 ∨ n = 45 then some 62
  else if n = 47 ∨ n = 95 then some 63
  else none

/-- Base64 encoding of a byte list, three bytes to four characters, with
padding. -/
def base64EncodeList : List Nat → List Char
  | [] => []
  | [b1] => [base64Char (b1 / 4), base64Char (b1 % 4 * 16), padChar, padChar]
  | [b1, b2] =>
    [base64Char (b1 / 4), base64Char (b1 % 4 * 16 + b2 / 16),
     base64Char (b2 % 16 * 4), padChar]
  | b1 :: b2 :: b3 :: rest =>
    base64Char (b1 / 4) :: base64Char (b1 % 4 * 16 + b2 / 16) ::
    base64Char (b2 % 16 * 4 + b3 / 64) :: base64Char (b3 % 64) ::
    base64EncodeList rest

/-- buffer.toString(base64). -/
def base64Encode (bs : List Nat) : String := String.mk (base64EncodeList bs)

/-- Regroup 6-bit values into bytes, four values to three bytes; a trailing
group of two or three values yields one or two bytes, a lone trailing value
is dropped (Node's lenient decoder). -/
def base64DecodeVals : List Nat → List Nat
  | v1 :: v2 :: v3 :: v4 :: rest =>
    (v1 * 4 + v2 / 16) :: (v2 % 16 * 16 + v3 / 4) :: (v3 % 4 * 64 + v4) ::
    base64DecodeVals rest
  | [v1, v2] => [v1 * 4 + v2 / 16]
  | [v1, v2, v3] => [v1 * 4 + v2 / 16, v2 % 16 * 16 + v3 / 4]
  | _ => []

/-- Buffer.from(s, base64): Node's lenient decoder, which skips characters
outside the (standard or url-safe) alphabet, including padding. -/
def base64DecodeChars (cs : List Char) : List Nat :=
  base64DecodeVals (cs.filterMap base64CharVal)

/-! ### JSON serialization (JSON.stringify) -/

/-- The double-quote character. -/
def quoteChar : Char := Char.ofNat 34

/-- The backslash character. -/
def bslashChar : Char := Char.ofNat 92

/-- Decimal digit character. -/
def digitChar (d : Nat) : Char := Char.ofNat (48 + d)

/-- Lowercase hexadecimal digit character, as in V8's escape sequences. -/
def hexChar (d : Nat) : Char :=
  if d < 10 then Char.ofNat (48 + d) else Char.ofNat (97 + (d - 10))

/-- JSON.stringify's escaping of a single character inside a string
literal. -/
def escapeChar (c : Char) : List Char :=
  if c = quoteChar then [bslashChar, quoteChar]
  else if c = bslashChar then [bslashChar, bslashChar]
  else if c.toNat = 8 then [bslashChar, 'b']
  else if c.toNat = 9 then [bslashChar, 't']
  else if c.toNat = 10 then [bslashChar, 'n']
  else if c.toNat = 12 then [bslashChar, 'f']
  else if c.toNat = 13 then [bslashChar, 'r']
  else if c.toNat < 32 then
    [bslashChar, 'u', digitChar 0, digitChar 0, hexChar (c.toNat / 16), hexChar (c.toNat % 16)]
  else [c]

/-- Escape every character of a string body. -/
def escapeList : List Char → List Char
  | [] => []
  | c :: cs => escapeChar c ++ escapeList cs

/-- A JSON string literal: quote, escaped body, quote. -/
def stringifyString (s : String) : List Char :=
  quoteChar :: escapeList s.data ++ [quoteChar]

/-- Decimal digits of a positive natural, most significant first; fuel
bounds the digit count. -/
def natDigitsAux : Nat → Nat → List Char
  | 0, _ => []
  | fuel + 1, n => if n = 0 then [] else natDigitsAux fuel (n / 10) ++ [digitChar (n % 10)]

/-- Decimal representation of a natural number. -/
def natToChars (n : Nat) : List Char :=
  if n = 0 then [digitChar 0] else natDigitsAux (n + 1) n

/-- Decimal representation of an integer (JavaScript number-to-string for
integral values). -/
def intToChars (i : Int) : List Char :=
  if i < 0 then Char.ofNat 45 :: natToChars i.natAbs else natToChars i.natAbs

mutual

/-- JSON.stringify of a single JSON value (no whitespace). -/
def stringifyValue : Json → List Char
  | .null => ("null" : String).data
  | .bool true => ("true" : String).data
  | .bool false => ("false" : String).data
  | .num i => intToChars i
  | .str s => stringifyString s
  | .arr xs => Char.ofNat 91 :: stringifyElems xs ++ [Char.ofNat 93]
  | .obj fs => Char.ofNat 123 :: stringifyFields fs ++ [Char.ofNat 125]

/-- Comma-separated serialization of array elements. -/
def stringifyElems : List Json → List Char
  | [] => []
  | [x] => stringifyValue x
  | x :: y :: rest => stringifyValue x ++ Char.ofNat 44 :: stringifyElems (y :: rest)

/-- Comma-separated serialization of object members. -/
def stringifyFields : List (String × Json) → List Char
  | [(key, val)] => stringifyString key ++ Char.ofNat 58 :: stringifyValue val
  | (key, val) :: snd :: more =>
    stringifyString key ++ Char.ofNat 58 :: stringifyValue val ++ Char.ofNat 44 ::
      stringifyFields (snd :: more)
  | [] => []

end

/-- JSON.stringify of a JSON value, as a string. -/
def jsonStringify (v : Json) : String := String.mk (stringifyValue v)

/-! ### JSON parsing (JSON.parse) -/

/-- Skip JSON whitespace (space, tab, line feed, carriage return). -/
def skipWs : List Char → List Char
  | [] => []
  | c :: cs =>
    if c.toNat = 32 ∨ c.toNat = 9 ∨ c.toNat = 10 ∨ c.toNat = 13 then skipWs cs else c :: cs

/-- Value of a hexadecimal digit character. -/
def hexVal (c : Char) : Option Nat :=
  let n := c.toNat
  if 48 ≤ n ∧ n ≤ 57 then some (n - 48)
  else if 97 ≤ n ∧ n ≤ 102 then some (n - 97 + 10)
  else if 65 ≤ n ∧ n ≤ 70 then some (n - 65 + 10)
  else none

/-- Meaning of a single-character escape sequence in a JSON string. -/
def escDecode (c : Char) : Option Char :=
  if c = quoteChar then some quoteChar
  else if c = bslashChar then some bslashChar
  else if c = Char.ofNat 47 then some (Char.ofNat 47)
  else if c = 'b' then some (Char.ofNat 8)
  else if c = 'f' then some (Char.ofNat 12)
  else if c = 'n' then some (Char.ofNat 10)
  else if c = 'r' then some (Char.ofNat 13)
  else if c = 't' then some (Char.ofNat 9)
  else none

/-- Prepend a code unit to the content component of a string-parse
result. -/
def consFst (u : Nat) : Option (List Nat × List Char) → Option (List Nat × List Char)
  | some (xs, r) => some (u :: xs, r)
  | none => none

/-- Scan the body of a JSON string literal after the opening quote into
UTF-16-style code units (an unescaped astral character stays one unit),
returning the units and what follows the closing quote. -/
def parseStrUnits : List Char → Option (List Nat × List Char)
  | [] => none
  | c :: rest =>
    if c = quoteChar then some ([], rest)
    else if c = bslashChar then
      match rest with
      | [] => none
      | c2 :: rest2 =>
        if c2 = 'u' then
          match rest2 with
          | h1 :: h2 :: h3 :: h4 :: rest3 =>
            match hexVal h1, hexVal h2, hexVal h3, hexVal h4 with
            | some a, some b, some c1, some d =>
              consFst (a * 4096 + b * 256 + c1 * 16 + d) (parseStrUnits rest3)
            | _, _, _, _ => none
          | _ => none
        else
          match escDecode c2 with
          | some d => consFst d.toNat (parseStrUnits rest2)
          | none => none
    else if c.toNat < 32 then none
    else consFst c.toNat (parseStrUnits rest)

/-- Combine scanned code units into characters: an escaped surrogate pair
becomes one scalar value, as in JavaScript; an unpaired surrogate becomes
U+FFFD (JavaScript strings holding lone surrogates have no scalar-value
representation). -/
def unitsToChars : List Nat → List Char
  | [] => []
  | [u] =>
    if 55296 ≤ u ∧ u ≤ 57343 then [replChar] else [Char.ofNat u]
  | u :: u2 :: rest =>
    if 55296 ≤ u ∧ u ≤ 56319 then
      if 56320 ≤ u2 ∧ u2 ≤ 57343 then
        Char.ofNat (65536 + (u - 55296) * 1024 + (u2 - 56320)) :: unitsToChars rest
      else replChar :: unitsToChars (u2 :: rest)
    else if 56320 ≤ u ∧ u ≤ 57343 then replChar :: unitsToChars (u2 :: rest)
    else Char.ofNat u :: unitsToChars (u2 :: rest)

/-- Parse the body of a JSON string literal after the opening quote,
returning the content and what follows the closing quote. -/
def parseStringBody (cs : List Char) : Option (List Char × List Char) :=
  match parseStrUnits cs with
  | some (units, rest) => some (unitsToChars units, rest)
  | none => none

/-- Consume a run of decimal digits, folding them onto an accumulator. -/
def parseNatAux : List Char → Nat → Nat × List Char
  | [], acc => (acc, [])
  | c :: cs, acc =>
    if c.isDigit then parseNatAux cs (acc * 10 + (c.toNat - 48)) else (acc, c :: cs)

/-- Whether a character list starts with a decimal digit. -/
def headIsDigit : List Char → Bool
  | d :: _ => d.isDigit
  | [] => false

/-- Whether a character list does not continue a numeral (used to state
numeral round-trip lemmas): it starts with no digit, decimal point, or
exponent marker. -/
def numBoundary : List Char → Bool
  | c :: _ => !(c.isDigit || c == Char.ofNat 46 || c == 'e' || c == 'E')
  | [] => true

/-- Parse an unsigned JSON integer numeral: no leading zero, and no
fraction or exponent (non-integer numbers are outside the model, see the
module comment). -/
def parseNumPart : List Char → Option (Nat × List Char)
  | [] => none
  | c :: cs =>
    if c.isDigit then
      if c = digitChar 0 ∧ headIsDigit cs then none
      else
        match parseNatAux (c :: cs) 0 with
        | (n, rest) =>
          match rest with
          | [] => some (n, [])
          | r :: rs =>
            if r = Char.ofNat 46 ∨ r = 'e' ∨ r = 'E' then none else some (n, r :: rs)
    else none

/-- Parse a JSON number (integer numerals only). -/
def parseNumber : List Char → Option (Json × List Char)
  | [] => none
  | c :: cs =>
    if c = Char.ofNat 45 then
      match parseNumPart cs with
      | some (n, rest) => some (.num (-(n : Int)), rest)
      | none => none
    else
      match parseNumPart (c :: cs) with
      | some (n, rest) => some (.num (n : Int), rest)
      | none => none

/-- Record a parsed object member: a duplicate key keeps its original
position and takes the later value, as JavaScript property assignment
does. -/
def insertField : List (String × Json) → String → Json → List (String × Json)
  | [], k, v => [(k, v)]
  | (k', v') :: rest, k, v =>
    if k' = k then (k', v) :: rest else (k', v') :: insertField rest k v

/-- Consume an expected keyword tail character by character. -/
def stripKeyword : List Char → List Char → Option (List Char)
  | [], rest => some rest
  | k :: kws, c :: rest => if c = k then stripKeyword kws rest else none
  | _ :: _, [] => none

mutual

/-- Parse one JSON value; the fuel bounds the recursion and always
suffices when it exceeds the input length. -/
def parseValue : Nat → List Char → Option (Json × List Char)
  | 0, _ => none
  | fuel + 1, cs =>
    match cs with
    | [] => none
    | c :: rest =>
      if c = Char.ofNat 123 then
        match skipWs rest with
        | c2 :: rest2 =>
          if c2 = Char.ofNat 125 then some (.obj [], rest2)
          else parseMembers fuel (c2 :: rest2) []
        | [] => none
      else if c = Char.ofNat 91 then
        match skipWs rest with
        | c2 :: rest2 =>
          if c2 = Char.ofNat 93 then some (.arr [], rest2)
          else parseElements fuel (c2 :: rest2) []
        | [] => none
      else if c = quoteChar then
        match parseStringBody rest with
        | some (content, rest2) => some (.str (String.mk content), rest2)
        | none => none
      else if c = 't' then
        match stripKeyword ("rue" : String).data rest with
        | some r => some (.bool true, r)
        | none => none
      else if c = 'f' then
        match stripKeyword ("alse" : String).data rest with
        | some r => some (.bool false, r)
        | none => none
      else if c = 'n' then
        match stripKeyword ("ull" : String).data rest with
        | some r => some (.null, r)
        | none => none
      else parseNumber (c :: rest)

/-- Parse the members of a JSON object after the opening brace (first
member not yet consumed, leading whitespace already skipped). -/
def parseMembers : Nat → List Char → List (String × Json) → Option (Json × List Char)
  | 0, _, _ => none
  | fuel + 1, cs, acc =>
    match cs with
    | [] => none
    | c :: rest =>
      if c = quoteChar then
        match parseStringBody rest with
        | some (key, rest1) =>
          match skipWs rest1 with
          | c2 :: rest2 =>
            if c2 = Char.ofNat 58 then
              match parseValue fuel (skipWs rest2) with
              | some (v, rest3) =>
                let acc2 := insertField acc (String.mk key) v
                match skipWs rest3 with
                | c3 :: rest4 =>
                  if c3 = Char.ofNat 44 then parseMembers fuel (skipWs rest4) acc2
                  else if c3 = Char.ofNat 125 then some (.obj acc2, rest4)
                  else none
                | [] => none
              | none => none
            else none
          | [] => none
        | none => none
      else none

/-- Parse the elements of a JSON array after the opening bracket (first
element not yet consumed, leading whitespace already skipped). -/
def parseElements : Nat → List Char → List Json → Option (Json × List Char)
  | 0, _, _ => none
  | fuel + 1, cs, acc =>
    match parseValue fuel cs with
    | some (v, rest) =>
      match skipWs rest with
      | c :: rest2 =>
        if c = Char.ofNat 44 then parseElements fuel (skipWs rest2) (acc ++ [v])
        else if c = Char.ofNat 93 then some (.arr (acc ++ [v]), rest2)
        else none
      | [] => none
    | none => none

end

/-- JSON.parse on a character list: parse one value surrounded by
whitespace, requiring the whole input to be consumed. -/
def jsonParseChars (cs : List Char) : Option Json :=
  match parseValue (cs.length + 1) (skipWs cs) with
  | some (v, rest) => if skipWs rest = [] then some v else none
  | none => none

/-- JSON.parse. -/
def jsonParse (s : String) : Option Json := jsonParseChars s.data

/-! ### HMAC-SHA256 (crypto.createHmac with sha256) -/

/-- Right rotation of a 32-bit word. -/
def rotr32 (r x : Nat) : Nat := x / 2 ^ r + x % 2 ^ r * 2 ^ (32 - r)

/-- Bitwise complement of a 32-bit word. -/
def not32 (x : Nat) : Nat := 4294967295 ^^^ x

/-- The eight working registers of SHA-256. -/
structure Hash8 where
  a : Nat
  b : Nat
  c : Nat
  d : Nat
  e : Nat
  f : Nat
  g : Nat
  h : Nat

/-- SHA-256 initial hash value (the standard eight words, in decimal). -/
def sha256InitHash : Hash8 :=
  ⟨1779033703, 3144134277, 1013904242, 2773480762,
   1359893119, 2600822924, 528734635, 1541459225⟩

/-- SHA-256 round constants (the standard sixty-four words, in decimal). -/
def sha256K : List Nat :=
  [1116352408, 1899447441, 3049323471, 3921009573,
   961987163, 1508970993, 2453635748, 2870763221,
   3624381080, 310598401, 607225278, 1426881987,
   1925078388, 2162078206, 2614888103, 3248222580,
   3835390401, 4022224774, 264347078, 604807628,
   770255983, 1249150122, 1555081692, 1996064986,
   2554220882, 2821834349, 2952996808, 3210313671,
   3336571891, 3584528711, 113926993, 338241895,
   666307205, 773529912, 1294757372, 1396182291,
   1695183700, 1986661051, 2177026350, 2456956037,
   2730485921, 2820302411, 3259730800, 3345764771,
   3516065817, 3600352804, 4094571909, 275423344,
   430227734, 506948616, 659060556, 883997877,
   958139571, 1322822218, 1537002063, 1747873779,
   1955562222, 2024104815, 2227730452, 2361852424,
   2428436474, 2756734187, 3204031479, 3329325298]

/-- Big-endian 32-bit words from bytes. -/
def toWords : List Nat → List Nat
  | b1 :: b2 :: b3 :: b4 :: rest =>
    (b1 * 16777216 + b2 * 65536 + b3 * 256 + b4) :: toWords rest
  | _ => []

/-- SHA-256 message-schedule sigma functions. -/
def smallSigma0 (x : Nat) : Nat := rotr32 7 x ^^^ rotr32 18 x ^^^ x / 8

/-- Second message-schedule sigma function. -/
def smallSigma1 (x : Nat) : Nat := rotr32 17 x ^^^ rotr32 19 x ^^^ x / 1024

/-- SHA-256 compression Sigma functions. -/
def bigSigma0 (x : Nat) : Nat := rotr32 2 x ^^^ rotr32 13 x ^^^ rotr32 22 x

/-- Second compression Sigma function. -/
def bigSigma1 (x : Nat) : Nat := rotr32 6 x ^^^ rotr32 11 x ^^^ rotr32 25 x

/-- Extend the sixteen block words to the sixty-four schedule words. -/
def extendWords : Nat → List Nat → List Nat
  | 0, ws => ws
  | fuel + 1, ws =>
    let len := ws.length
    let nw := (smallSigma1 (ws.getD (len - 2) 0) + ws.getD (len - 7) 0 +
               smallSigma0 (ws.getD (len - 15) 0) + ws.getD (len - 16) 0) % 4294967296
    extendWords fuel (ws ++ [nw])

/-- One SHA-256 compression round. -/
def roundStep (st : Hash8) (k w : Nat) : Hash8 :=
  let ch := (st.e &&& st.f) ^^^ (not32 st.e &&& st.g)
  let maj := (st.a &&& st.b) ^^^ (st.a &&& st.c) ^^^ (st.b &&& st.c)
  let t1 := (st.h + bigSigma1 st.e + ch + k + w) % 4294967296
  let t2 := (bigSigma0 st.a + maj) % 4294967296
  ⟨(t1 + t2) % 4294967296, st.a, st.b, st.c, (st.d + t1) % 4294967296, st.e, st.f, st.g⟩

/-- Run the sixty-four rounds over paired constants and schedule words. -/
def roundsLoop : List (Nat × Nat) → Hash8 → Hash8
  | [], st => st
  | (k, w) :: rest, st => roundsLoop rest (roundStep st k w)

/-- Compress one 64-byte block into the running hash. -/
def compressBlock (st : Hash8) (block : List Nat) : Hash8 :=
  let ws := extendWords 48 (toWords block)
  let r := roundsLoop (sha256K.zip ws) st
  ⟨(st.a + r.a) % 4294967296, (st.b + r.b) % 4294967296,
   (st.c + r.c) % 4294967296, (st.d + r.d) % 4294967296,
   (st.e + r.e) % 4294967296, (st.f + r.f) % 4294967296,
   (st.g + r.g) % 4294967296, (st.h + r.h) % 4294967296⟩

/-- Big-endian eight-byte encoding of the bit length. -/
def be64 (n : Nat) : List Nat :=
  [n / 2 ^ 56 % 256, n / 2 ^ 48 % 256, n / 2 ^ 40 % 256, n / 2 ^ 32 % 256,
   n / 2 ^ 24 % 256, n / 2 ^ 16 % 256, n / 2 ^ 8 % 256, n % 256]

/-- SHA-256 padding: a one bit, zeros, and the 64-bit message bit length,
to a multiple of 64 bytes. -/
def sha256Pad (msg : List Nat) : List Nat :=
  msg ++ 128 :: List.replicate ((119 - msg.length % 64) % 64) 0 ++ be64 (msg.length * 8)

/-- Split into 64-byte blocks; the fuel (the byte count) always
suffices. -/
def chunksAux : Nat → List Nat → List (List Nat)
  | 0, _ => []
  | _ + 1, [] => []
  | fuel + 1, bs => bs.take 64 :: chunksAux fuel (bs.drop 64)

/-- Big-endian bytes of a 32-bit word. -/
def wordBytes (w : Nat) : List Nat :=
  [w / 16777216 % 256, w / 65536 % 256, w / 256 % 256, w % 256]

/-- SHA-256 of a byte list. -/
def sha256 (msg : List Nat) : List Nat :=
  let padded := sha256Pad msg
  let fin := (chunksAux padded.length padded).foldl compressBlock sha256InitHash
  wordBytes fin.a ++ wordBytes fin.b ++ wordBytes fin.c ++ wordBytes fin.d ++
  wordBytes fin.e ++ wordBytes fin.f ++ wordBytes fin.g ++ wordBytes fin.h

/-- HMAC-SHA256 (crypto.createHmac(sha256, key).update(msg).digest()). -/
def hmacSha256 (key msg : List Nat) : List Nat :=
  let k0 := if 64 < key.length then sha256 key else key
  let kp := k0 ++ List.replicate (64 - k0.length) 0
  let inner := sha256 (kp.map (fun b => b ^^^ 54) ++ msg)
  sha256 (kp.map (fun b => b ^^^ 92) ++ inner)

/-! ### utils/auth.js: generateToken and verifyToken -/

/-- JavaScript `a || b` on possibly-absent string values: the empty string
and an absent value are falsy. -/
def jsOrStr (a b : Option String) : Option String :=
  match a with
  | some s => if s = "" then b else some s
  | none => b

/-- JavaScript `a || dflt` where the fallback is a literal string. -/
def jsOrDefault (a : Option String) (dflt : String) : String :=
  match a with
  | some s => if s = "" then dflt else s
  | none => dflt

/-- A user record as generateToken consumes it: each field is a string or
absent (JavaScript undefined). -/
structure UserRec where
  _id : Option String
  id : Option String
  email : Option String
  username : Option String

/-- The claims object serialized into the token payload:
id (user._id || user.id), email, username, iat.  A field whose value is
JavaScript undefined is omitted by JSON.stringify. -/
def userClaims (user : UserRec) (iat : Nat) : List (String × Json) :=
  (match jsOrStr user._id user.id with
   | some s => [("id", Json.str s)]
   | none => []) ++
  (match user.email with
   | some s => [("email", Json.str s)]
   | none => []) ++
  (match user.username with
   | some s => [("username", Json.str s)]
   | none => []) ++
  [("iat", Json.num (iat : Int))]

/-- The fixed JWT header object. -/
def headerJson : Json := Json.obj [("alg", Json.str "HS256"), ("typ", Json.str "JWT")]

/-- generateToken from utils/auth.js.  The ambient inputs are explicit:
`jwtSecretEnv` is process.env.JWT_SECRET and `nowMs` is Date.now(); the
issued-at claim is Math.floor(nowMs / 1000). -/
def generateToken (jwtSecretEnv : Option String) (nowMs : Nat) (user : UserRec) : String :=
  let header := base64Encode (strBytes (jsonStringify headerJson))
  let payload := base64Encode (strBytes (jsonStringify (Json.obj (userClaims user (nowMs / 1000)))))
  let secret := jsOrDefault jwtSecretEnv "test-secret-key"
  let signature := base64Encode (hmacSha256 (strBytes secret) (strBytes (header ++ "." ++ payload)))
  header ++ "." ++ payload ++ "." ++ signature

/-- The first wire segment of every generated token: base64 of the JSON
header. -/
def headerSegment : List Char := base64EncodeList (strBytes (jsonStringify headerJson))

/-- The second wire segment: base64 of the JSON claims. -/
def payloadSegment (user : UserRec) (iat : Nat) : List Char :=
  base64EncodeList (strBytes (jsonStringify (Json.obj (userClaims user iat))))

/-- The third wire segment: base64 of the HMAC-SHA256 signature of
header-dot-payload under the configured (or default) secret. -/
def signatureSegment (jwtSecretEnv : Option String) (user : UserRec) (iat : Nat) : List Char :=
  base64EncodeList (hmacSha256 (strBytes (jsOrDefault jwtSecretEnv "test-secret-key"))
    (strBytes (base64Encode (strBytes (jsonStringify headerJson)) ++ "." ++
      base64Encode (strBytes (jsonStringify (Json.obj (userClaims user iat)))))))

/-- JavaScript String.prototype.split with a single-character separator
(no limit): the result always has at least one part, and the empty string
splits to one empty part. -/
def splitOnChar (sep : Char) : List Char → List (List Char)
  | [] => [[]]
  | c :: rest =>
    if c = sep then [] :: splitOnChar sep rest
    else
      match splitOnChar sep rest with
      | part :: parts => (c :: part) :: parts
      | [] => [[c]]

/-- Decoding of the payload segment inside verifyToken:
JSON.parse(Buffer.from(payload, base64).toString()). -/
def decodePayload (payload : List Char) : Option Json :=
  jsonParse (bytesToStr (base64DecodeChars payload))

/-- verifyToken from utils/auth.js: split on the dot, require the first
three destructured parts to be truthy (JavaScript destructuring ignores
parts past the third and leaves missing ones undefined), then decode and
parse the payload; any decode or parse failure is caught and becomes
null.  A payload whose JSON text is the literal null also yields null. -/
def verifyToken (token : String) : Json :=
  let parts := splitOnChar '.' token.data
  let header := parts.getD 0 []
  let payload := parts.getD 1 []
  let signature := parts.getD 2 []
  if header = [] ∨ payload = [] ∨ signature = [] then Json.null
  else
    match decodePayload payload with
    | some v => v
    | none => Json.null

/-! ### middleware/auth.js: authMiddleware -/

/-- The req.headers value: a headers object (whose authorization entry may
be absent) or JavaScript undefined (possible when the middleware is called
outside Express, as the unit tests do). -/
inductive HeadersVal where
  | obj (authorization : Option String)
  | undef

/-- An incoming request as the middleware sees it. -/
structure JsRequest where
  headers : HeadersVal

/-- The single observable outcome of one middleware run: either next() was
called with the decoded claims attached as req.user, or exactly one error
response was sent. -/
inductive GateOutcome where
  | next (user : Json)
  | response (status : Nat) (error : String)

/-- JavaScript falsiness of a JSON value (`!decoded`). -/
def jsFalsy : Json → Bool
  | .null => true
  | .bool b => !b
  | .num n => n == 0
  | .str s => s == ""
  | .arr _ => false
  | .obj _ => false

/-- The body of authMiddleware inside its try block; reading the
authorization property of an undefined headers object throws. -/
def authMiddlewareBody (req : JsRequest) : Except String GateOutcome :=
  match req.headers with
  | .undef => Except.error "TypeError"
  | .obj authHeader =>
    match authHeader with
    | none => Except.ok (GateOutcome.response 401 "Missing or invalid authorization header")
    | some h =>
      if "Bearer ".data.isPrefixOf h.data then
        let token := String.mk (h.data.drop 7)
        let decoded := verifyToken token
        if jsFalsy decoded then Except.ok (GateOutcome.response 401 "Invalid token")
        else Except.ok (GateOutcome.next decoded)
      else Except.ok (GateOutcome.response 401 "Missing or invalid authorization header")

/-- authMiddleware from middleware/auth.js: the catch clause converts any
exception into a 401 Authentication failed response. -/
def authMiddleware (req : JsRequest) : GateOutcome :=
  match authMiddlewareBody req with
  | Except.ok o => o
  | Except.error _ => GateOutcome.response 401 "Authentication failed"

/-! ### Lemmas: UTF-8 round trip -/

theorem char_toNat_cases (c : Char) :
    c.toNat < 55296 ∨ (57343 < c.toNat ∧ c.toNat < 1114112) := c.valid

theorem char_toNat_lt (c : Char) : c.toNat < 1114112 := by
  rcases char_toNat_cases c with h | h
  · omega
  · omega

theorem toNat_ofNat_valid {n : Nat} (hv : Nat.isValidChar n) :
    Char.toNat (Char.ofNat n) = n := by
  simp only [Char.ofNat, hv, dite_true]
  simp [Char.ofNatAux, Char.toNat, UInt32.toNat]

theorem utf8EncodeChar_bytes_lt (c : Char) : ∀ b ∈ utf8EncodeChar c, b < 256 := by
  have hlt := char_toNat_lt c
  simp only [utf8EncodeChar]
  split_ifs <;> intro b hb <;> simp at hb <;> omega

theorem utf8EncodeChar_ne_nil (c : Char) : utf8EncodeChar c ≠ [] := by
  simp only [utf8EncodeChar]
  split_ifs <;> simp

theorem utf8Encode_bytes_lt (cs : List Char) : ∀ b ∈ utf8Encode cs, b < 256 := by
  induction cs with
  | nil => simp [utf8Encode]
  | cons c cs ih =>
    intro b hb
    simp only [utf8Encode, List.mem_append] at hb
    rcases hb with hb | hb
    · exact utf8EncodeChar_bytes_lt c b hb
    · exact ih b hb

theorem utf8Encode_eq_nil_iff (cs : List Char) : utf8Encode cs = [] ↔ cs = [] := by
  cases cs with
  | nil => simp [utf8Encode]
  | cons c cs =>
    simp only [utf8Encode, List.append_eq_nil]
    have := utf8EncodeChar_ne_nil c
    simp_all

theorem utf8DecodeOne_encodeChar (c : Char) (rest : List Nat) :
    ∀ b bs, utf8EncodeChar c = b :: bs →
      utf8DecodeOne b (bs ++ rest) = (c, rest) := by
  have hlt := char_toNat_lt c
  intro b bs henc
  simp only [utf8EncodeChar] at henc
  split_ifs at henc with h1 h2 h3
  · cases henc
    simp only [utf8DecodeOne, List.nil_append]
    rw [if_pos h1, Char.ofNat_toNat]
  · cases henc
    simp only [utf8DecodeOne, List.cons_append]
    split_ifs <;> try omega
    have : (192 + c.toNat / 64 - 192) * 64 + (128 + c.toNat % 64 - 128) = c.toNat := by omega
    rw [this, Char.ofNat_toNat]
    rfl
  · rcases char_toNat_cases c with hv | hv
    all_goals
      cases henc
      simp only [utf8DecodeOne, List.cons_append]
      split_ifs <;> try omega
      have : (224 + c.toNat / 4096 - 224) * 4096 + (128 + c.toNat / 64 % 64 - 128) * 64 +
          (128 + c.toNat % 64 - 128) = c.toNat := by omega
      rw [this, Char.ofNat_toNat]
      rfl
  · cases henc
    simp only [utf8DecodeOne, List.cons_append]
    split_ifs <;> try omega
    have : (240 + c.toNat / 262144 - 240) * 262144 + (128 + c.toNat / 4096 % 64 - 128) * 4096 +
        (128 + c.toNat / 64 % 64 - 128) * 64 + (128 + c.toNat % 64 - 128) = c.toNat := by omega
    rw [this, Char.ofNat_toNat]
    rfl

theorem utf8DecodeAux_encode (cs : List Char) :
    ∀ fuel, (utf8Encode cs).length ≤ fuel → utf8DecodeAux fuel (utf8Encode cs) = cs := by
  induction cs with
  | nil =>
    intro fuel _
    cases fuel <;> simp [utf8Encode, utf8DecodeAux]
  | cons c cs ih =>
    intro fuel hfuel
    have hne := utf8EncodeChar_ne_nil c
    rcases hb : utf8EncodeChar c with _ | ⟨b, bs⟩
    · exact absurd hb hne
    have henc : utf8Encode (c :: cs) = b :: (bs ++ utf8Encode cs) := by
      simp [utf8Encode, hb]
    rw [henc] at hfuel ⊢
    rcases fuel with _ | fuel
    · simp at hfuel
    have hdec := utf8DecodeOne_encodeChar c (utf8Encode cs) b bs hb
    simp only [utf8DecodeAux, hdec]
    have hlen : (utf8Encode cs).length ≤ fuel := by
      simp only [List.length_cons, List.length_append] at hfuel
      omega
    rw [ih fuel hlen]

theorem bytesToStr_utf8Encode (cs : List Char) :
    bytesToStr (utf8Encode cs) = String.mk cs := by
  unfold bytesToStr
  rw [utf8DecodeAux_encode cs _ (Nat.le_refl _)]

/-! ### Lemmas: base64 round trip and alphabet -/

theorem base64CharVal_base64Char : ∀ v, v < 64 → base64CharVal (base64Char v) = some v := by
  decide

theorem base64CharVal_padChar : base64CharVal padChar = none := by decide

theorem base64Char_ne_dot : ∀ v, v < 64 → base64Char v ≠ '.' := by decide

theorem padChar_ne_dot : padChar ≠ '.' := by decide

theorem base64_decode_encode :
    ∀ (bs : List Nat), (∀ b ∈ bs, b < 256) → base64DecodeChars (base64EncodeList bs) = bs
  | [], _ => by
    simp [base64EncodeList, base64DecodeChars, base64DecodeVals]
  | [b1], h => by
    have hb1 : b1 < 256 := h b1 (by simp)
    have hv1 := base64CharVal_base64Char (b1 / 4) (by omega)
    have hv2 := base64CharVal_base64Char (b1 % 4 * 16) (by omega)
    simp only [base64EncodeList, base64DecodeChars, List.filterMap_cons, hv1, hv2,
      base64CharVal_padChar, List.filterMap_nil, base64DecodeVals, List.cons.injEq, and_true]
    omega
  | [b1, b2], h => by
    have hb1 : b1 < 256 := h b1 (by simp)
    have hb2 : b2 < 256 := h b2 (by simp)
    have hv1 := base64CharVal_base64Char (b1 / 4) (by omega)
    have hv2 := base64CharVal_base64Char (b1 % 4 * 16 + b2 / 16) (by omega)
    have hv3 := base64CharVal_base64Char (b2 % 16 * 4) (by omega)
    simp only [base64EncodeList, base64DecodeChars, List.filterMap_cons, hv1, hv2, hv3,
      base64CharVal_padChar, List.filterMap_nil, base64DecodeVals, List.cons.injEq, and_true]
    omega
  | b1 :: b2 :: b3 :: rest, h => by
    have hb1 : b1 < 256 := h b1 (by simp)
    have hb2 : b2 < 256 := h b2 (by simp)
    have hb3 : b3 < 256 := h b3 (by simp)
    have ih := base64_decode_encode rest (fun b hb => h b (by simp [hb]))
    have hv1 := base64CharVal_base64Char (b1 / 4) (by omega)
    have hv2 := base64CharVal_base64Char (b1 % 4 * 16 + b2 / 16) (by omega)
    have hv3 := base64CharVal_base64Char (b2 % 16 * 4 + b3 / 64) (by omega)
    have hv4 := base64CharVal_base64Char (b3 % 64) (by omega)
    simp only [base64DecodeChars] at ih
    simp only [base64EncodeList, base64DecodeChars, List.filterMap_cons, hv1, hv2, hv3, hv4,
      base64DecodeVals, List.cons.injEq]
    refine ⟨by omega, by omega, by omega, ih⟩

theorem base64EncodeList_no_dot :
    ∀ (bs : List Nat), (∀ b ∈ bs, b < 256) → ∀ c ∈ base64EncodeList bs, c ≠ '.'
  | [], _ => by simp [base64EncodeList]
  | [b1], h => by
    have hb1 : b1 < 256 := h b1 (by simp)
    simp only [base64EncodeList, List.mem_cons, List.not_mem_nil, or_false]
    rintro c (rfl | rfl | rfl | rfl)
    · exact base64Char_ne_dot _ (by omega)
    · exact base64Char_ne_dot _ (by omega)
    · exact padChar_ne_dot
    · exact padChar_ne_dot
  | [b1, b2], h => by
    have hb1 : b1 < 256 := h b1 (by simp)
    have hb2 : b2 < 256 := h b2 (by simp)
    simp only [base64EncodeList, List.mem_cons, List.not_mem_nil, or_false]
    rintro c (rfl | rfl | rfl | rfl)
    · exact base64Char_ne_dot _ (by omega)
    · exact base64Char_ne_dot _ (by omega)
    · exact base64Char_ne_dot _ (by omega)
    · exact padChar_ne_dot
  | b1 :: b2 :: b3 :: rest, h => by
    have hb1 : b1 < 256 := h b1 (by simp)
    have hb2 : b2 < 256 := h b2 (by simp)
    have hb3 : b3 < 256 := h b3 (by simp)
    have ih := base64EncodeList_no_dot rest (fun b hb => h b (by simp [hb]))
    simp only [base64EncodeList, List.mem_cons]
    rintro c (rfl | rfl | rfl | rfl | hc)
    · exact base64Char_ne_dot _ (by omega)
    · exact base64Char_ne_dot _ (by omega)
    · exact base64Char_ne_dot _ (by omega)
    · exact base64Char_ne_dot _ (by omega)
    · exact ih c hc

theorem base64EncodeList_ne_nil : ∀ (bs : List Nat), bs ≠ [] → base64EncodeList bs ≠ [] := by
  intro bs hne
  match bs with
  | [] => exact absurd rfl hne
  | [b1] => simp [base64EncodeList]
  | [b1, b2] => simp [base64EncodeList]
  | b1 :: b2 :: b3 :: rest => simp [base64EncodeList]

/-! ### Lemmas: JavaScript string split -/

theorem splitOnChar_ne_nil (sep : Char) (cs : List Char) : splitOnChar sep cs ≠ [] := by
  cases cs with
  | nil => simp [splitOnChar]
  | cons c rest =>
    simp only [splitOnChar]
    split_ifs
    · simp
    · rcases hs : splitOnChar sep rest with _ | ⟨p, ps⟩ <;> simp

theorem splitOnChar_no_sep (sep : Char) (cs : List Char) (h : sep ∉ cs) :
    splitOnChar sep cs = [cs] := by
  induction cs with
  | nil => rfl
  | cons c rest ih =>
    simp only [List.mem_cons, not_or] at h
    have hcs : ¬ c = sep := fun he => h.1 he.symm
    simp only [splitOnChar, if_neg hcs, ih h.2]

theorem splitOnChar_append (sep : Char) (xs ys : List Char) (h : sep ∉ xs) :
    splitOnChar sep (xs ++ sep :: ys) = xs :: splitOnChar sep ys := by
  induction xs with
  | nil => simp [splitOnChar]
  | cons c rest ih =>
    simp only [List.mem_cons, not_or] at h
    have hcs : ¬ c = sep := fun he => h.1 he.symm
    have h2 := ih h.2
    simp only [List.cons_append, splitOnChar, if_neg hcs]
    rw [show List.append rest (sep :: ys) = rest ++ sep :: ys from rfl, h2]

theorem splitOnChar_parts_no_sep (sep : Char) (cs : List Char) :
    ∀ part ∈ splitOnChar sep cs, sep ∉ part := by
  induction cs with
  | nil =>
    intro part hp
    simp only [splitOnChar, List.mem_singleton] at hp
    simp [hp]
  | cons c rest ih =>
    intro part hp
    simp only [splitOnChar] at hp
    split_ifs at hp with hc
    · rcases List.mem_cons.mp hp with rfl | hmem
      · simp
      · exact ih part hmem
    · rcases hs : splitOnChar sep rest with _ | ⟨p, ps⟩
      · exact absurd hs (splitOnChar_ne_nil sep rest)
      · rw [hs] at hp
        rcases List.mem_cons.mp hp with rfl | hmem
        · intro hin
          rcases List.mem_cons.mp hin with rfl | hin2
          · exact hc rfl
          · exact ih p (by rw [hs]; simp) hin2
        · exact ih part (by rw [hs]; simp [hmem])

/-! ### Lemmas: decimal numeral round trip -/

theorem char_toNat_inj {c d : Char} (h : c.toNat = d.toNat) : c = d :=
  Char.eq_of_val_eq (UInt32.toNat.inj h)

theorem char_isDigit_bounds (c : Char) (h : c.isDigit = true) :
    48 ≤ c.toNat ∧ c.toNat ≤ 57 := by
  simp [Char.isDigit] at h
  exact h

theorem digitChar_isDigit : ∀ d, d < 10 → (digitChar d).isDigit = true := by decide

theorem digitChar_toNat : ∀ d, d < 10 → (digitChar d).toNat = 48 + d := by decide

theorem digitChar_ne_zero : ∀ d, d < 10 → d ≠ 0 → digitChar d ≠ digitChar 0 := by decide

theorem hexVal_hexChar : ∀ d, d < 16 → hexVal (hexChar d) = some d := by decide

theorem parseNatAux_digits :
    ∀ (ds : List Char) (rest : List Char), (∀ c ∈ ds, c.isDigit = true) →
      headIsDigit rest = false → ∀ acc,
      parseNatAux (ds ++ rest) acc =
        (ds.foldl (fun a c => a * 10 + (c.toNat - 48)) acc, rest) := by
  intro ds
  induction ds with
  | nil =>
    intro rest _ hrest acc
    cases rest with
    | nil => simp [parseNatAux]
    | cons r rs =>
      simp only [headIsDigit] at hrest
      simp [parseNatAux, hrest]
  | cons d ds ih =>
    intro rest hds hrest acc
    have hd : d.isDigit = true := hds d (by simp)
    simp only [List.cons_append, parseNatAux, if_pos hd, List.foldl_cons]
    exact ih rest (fun c hc => hds c (by simp [hc])) hrest _

theorem natDigitsAux_all_digits :
    ∀ (fuel n : Nat), ∀ c ∈ natDigitsAux fuel n, c.isDigit = true := by
  intro fuel
  induction fuel with
  | zero => intro n c hc; simp [natDigitsAux] at hc
  | succ fuel ih =>
    intro n c hc
    simp only [natDigitsAux] at hc
    split_ifs at hc with h
    · simp at hc
    · rcases List.mem_append.mp hc with hc | hc
      · exact ih _ c hc
      · simp only [List.mem_singleton] at hc
        subst hc
        exact digitChar_isDigit _ (by omega)

theorem natDigitsAux_foldl :
    ∀ (fuel n : Nat), n < 10 ^ fuel → ∀ acc,
      (natDigitsAux fuel n).foldl (fun a c => a * 10 + (c.toNat - 48)) acc =
        acc * 10 ^ (natDigitsAux fuel n).length + n := by
  intro fuel
  induction fuel with
  | zero =>
    intro n hn acc
    simp only [pow_zero, Nat.lt_one_iff] at hn
    subst hn
    simp [natDigitsAux]
  | succ fuel ih =>
    intro n hn acc
    by_cases h0 : n = 0
    · subst h0
      simp [natDigitsAux]
    · have hlt : n / 10 < 10 ^ fuel := by
        rw [pow_succ] at hn
        omega
      simp only [natDigitsAux, if_neg h0, List.foldl_append, List.length_append,
        List.foldl_cons, List.foldl_nil, List.length_cons, List.length_nil]
      rw [ih _ hlt acc]
      rw [digitChar_toNat _ (by omega)]
      set k := acc * 10 ^ (natDigitsAux fuel (n / 10)).length with hk
      rw [pow_succ, ← Nat.mul_assoc, ← hk]
      omega

theorem natDigitsAux_head :
    ∀ (fuel n : Nat), n ≠ 0 → n < 10 ^ fuel →
      ∃ c cs, natDigitsAux fuel n = c :: cs ∧ c ≠ digitChar 0 ∧ c.isDigit = true := by
  intro fuel
  induction fuel with
  | zero =>
    intro n hn hlt
    simp only [pow_zero, Nat.lt_one_iff] at hlt
    exact absurd hlt hn
  | succ fuel ih =>
    intro n hn hlt
    by_cases h10 : n / 10 = 0
    · refine ⟨digitChar (n % 10), [], ?_, ?_, ?_⟩
      · simp only [natDigitsAux, if_neg hn, h10]
        cases fuel <;> simp [natDigitsAux]
      · exact digitChar_ne_zero _ (by omega) (by omega)
      · exact digitChar_isDigit _ (by omega)
    · have hlt10 : n / 10 < 10 ^ fuel := by
        rw [pow_succ] at hlt
        omega
      obtain ⟨c, cs, heq, hne, hdig⟩ := ih (n / 10) h10 hlt10
      refine ⟨c, cs ++ [digitChar (n % 10)], ?_, hne, hdig⟩
      simp only [natDigitsAux, if_neg hn, heq, List.cons_append]

theorem n_lt_ten_pow (n : Nat) : n < 10 ^ (n + 1) := by
  calc n < 2 ^ n * 2 := by
          have := Nat.lt_two_pow n
          omega
    _ ≤ 10 ^ n * 10 := by
          apply Nat.mul_le_mul _ (by norm_num)
          exact Nat.pow_le_pow_left (by norm_num) n
    _ = 10 ^ (n + 1) := (pow_succ 10 n).symm

theorem parseNumPart_natToChars (n : Nat) (rest : List Char)
    (hb : numBoundary rest = true) :
    parseNumPart (natToChars n ++ rest) = some (n, rest) := by
  have hrest_digit : headIsDigit rest = false := by
    cases rest with
    | nil => rfl
    | cons r rs =>
      simp only [numBoundary, Bool.not_eq_true', Bool.or_eq_false_iff] at hb
      simp [headIsDigit, hb.1.1.1]
  have hrest_nodote :
      ∀ r rs, rest = r :: rs → ¬ (r = Char.ofNat 46 ∨ r = 'e' ∨ r = 'E') := by
    intro r rs hr
    subst hr
    simp only [numBoundary, Bool.not_eq_true', Bool.or_eq_false_iff,
      beq_eq_false_iff_ne, ne_eq] at hb
    obtain ⟨⟨⟨_, h46⟩, he⟩, hE⟩ := hb
    tauto
  by_cases h0 : n = 0
  · subst h0
    have : natToChars 0 = [digitChar 0] := by simp [natToChars]
    rw [this]
    have hfold := parseNatAux_digits [digitChar 0] rest
      (by intro c hc; simp at hc; subst hc; exact digitChar_isDigit 0 (by omega))
      hrest_digit 0
    simp only [List.cons_append, List.nil_append] at hfold ⊢
    simp only [parseNumPart, digitChar_isDigit 0 (by omega), if_true]
    rw [if_neg (by
      intro hand
      rw [hand.2] at hrest_digit
      simp at hrest_digit)]
    rw [hfold]
    simp only [List.foldl_cons, List.foldl_nil, digitChar_toNat 0 (by omega)]
    cases rest with
    | nil => simp
    | cons r rs =>
      have := hrest_nodote r rs rfl
      simp only []
      rw [if_neg this]
  · have hlt := n_lt_ten_pow n
    have hnat : natToChars n = natDigitsAux (n + 1) n := by simp [natToChars, h0]
    obtain ⟨c, cs, heq, hne, hdig⟩ := natDigitsAux_head (n + 1) n h0 hlt
    have halldig := natDigitsAux_all_digits (n + 1) n
    rw [hnat, heq]
    have hfold := parseNatAux_digits (c :: cs) rest
      (by intro x hx; exact halldig x (by rw [heq]; exact hx)) hrest_digit 0
    simp only [List.cons_append] at hfold ⊢
    simp only [parseNumPart, hdig, if_true]
    rw [if_neg (by intro hand; exact hne hand.1)]
    rw [hfold]
    have hval := natDigitsAux_foldl (n + 1) n hlt 0
    rw [heq] at hval
    simp only [Nat.zero_mul, Nat.zero_add] at hval
    rw [hval]
    cases rest with
    | nil => simp
    | cons r rs =>
      have := hrest_nodote r rs rfl
      simp only []
      rw [if_neg this]

/-! ### Lemmas: JSON string literal round trip -/

theorem char_not_surrogate (c : Char) : ¬ (55296 ≤ c.toNat ∧ c.toNat ≤ 57343) := by
  rcases char_toNat_cases c with h | h <;> omega

theorem parseStrUnits_quote (tail : List Char) :
    parseStrUnits (quoteChar :: tail) = some ([], tail) := by
  simp [parseStrUnits.eq_def]

theorem parseStrUnits_plainChar (c : Char) (tail : List Char) (hq : ¬ c = quoteChar)
    (hb : ¬ c = bslashChar) (hge : ¬ c.toNat < 32) :
    parseStrUnits (c :: tail) = consFst c.toNat (parseStrUnits tail) := by
  rw [parseStrUnits.eq_def]
  simp only [hq, hb, hge, ite_true, ite_false, if_true, if_false]

theorem parseStrUnits_simpleEsc (c2 d : Char) (tail : List Char) (hne : ¬ c2 = 'u')
    (hd : escDecode c2 = some d) :
    parseStrUnits (bslashChar :: c2 :: tail) = consFst d.toNat (parseStrUnits tail) := by
  rw [parseStrUnits.eq_def]
  simp only [show ¬ bslashChar = quoteChar by decide, hne, hd, ite_true, ite_false,
    if_true, if_false]

theorem parseStrUnits_uEsc (h1 h2 h3 h4 : Char) (a b c1 d : Nat) (tail : List Char)
    (e1 : hexVal h1 = some a) (e2 : hexVal h2 = some b) (e3 : hexVal h3 = some c1)
    (e4 : hexVal h4 = some d) :
    parseStrUnits (bslashChar :: 'u' :: h1 :: h2 :: h3 :: h4 :: tail) =
      consFst (a * 4096 + b * 256 + c1 * 16 + d) (parseStrUnits tail) := by
  rw [parseStrUnits.eq_def]
  simp only [show ¬ bslashChar = quoteChar by decide, e1, e2, e3, e4, ite_true, ite_false,
    if_true, if_false]

theorem parseStrUnits_escapeList :
    ∀ (cs : List Char) (rest : List Char),
      parseStrUnits (escapeList cs ++ quoteChar :: rest) = some (cs.map Char.toNat, rest) := by
  intro cs
  induction cs with
  | nil =>
    intro rest
    simp only [escapeList, List.nil_append, List.map_nil, parseStrUnits_quote]
  | cons c cs ih =>
    intro rest
    simp only [escapeList, escapeChar, List.map_cons]
    split_ifs with h1 h2 h3 h4 h5 h6 h7 h8
    · subst h1
      simp only [List.cons_append, List.nil_append]
      rw [parseStrUnits_simpleEsc quoteChar quoteChar _ (by decide) (by decide), ih rest]
      rfl
    · subst h2
      simp only [List.cons_append, List.nil_append]
      rw [parseStrUnits_simpleEsc bslashChar bslashChar _ (by decide) (by decide), ih rest]
      rfl
    · simp only [List.cons_append, List.nil_append]
      rw [parseStrUnits_simpleEsc 'b' (Char.ofNat 8) _ (by decide) (by decide), ih rest]
      simp only [consFst]
      rw [show (Char.ofNat 8).toNat = c.toNat by rw [h3]; rfl]
    · simp only [List.cons_append, List.nil_append]
      rw [parseStrUnits_simpleEsc 't' (Char.ofNat 9) _ (by decide) (by decide), ih rest]
      simp only [consFst]
      rw [show (Char.ofNat 9).toNat = c.toNat by rw [h4]; rfl]
    · simp only [List.cons_append, List.nil_append]
      rw [parseStrUnits_simpleEsc 'n' (Char.ofNat 10) _ (by decide) (by decide), ih rest]
      simp only [consFst]
      rw [show (Char.ofNat 10).toNat = c.toNat by rw [h5]; rfl]
    · simp only [List.cons_append, List.nil_append]
      rw [parseStrUnits_simpleEsc 'f' (Char.ofNat 12) _ (by decide) (by decide), ih rest]
      simp only [consFst]
      rw [show (Char.ofNat 12).toNat = c.toNat by rw [h6]; rfl]
    · simp only [List.cons_append, List.nil_append]
      rw [parseStrUnits_simpleEsc 'r' (Char.ofNat 13) _ (by decide) (by decide), ih rest]
      simp only [consFst]
      rw [show (Char.ofNat 13).toNat = c.toNat by rw [h7]; rfl]
    · simp only [List.cons_append, List.nil_append]
      have harith : (0 : Nat) * 4096 + 0 * 256 + (c.toNat / 16) * 16 + c.toNat % 16 =
          c.toNat := by
        omega
      rw [parseStrUnits_uEsc (digitChar 0) (digitChar 0) (hexChar (c.toNat / 16))
        (hexChar (c.toNat % 16)) 0 0 (c.toNat / 16) (c.toNat % 16) _
        (by decide) (by decide)
        (hexVal_hexChar (c.toNat / 16) (by omega)) (hexVal_hexChar (c.toNat % 16) (by omega)),
        ih rest]
      simp only [consFst]
      rw [harith]
    · simp only [List.cons_append, List.nil_append]
      rw [parseStrUnits_plainChar c _ h1 h2 (by omega), ih rest]
      rfl

theorem unitsToChars_map : ∀ (cs : List Char), unitsToChars (cs.map Char.toNat) = cs
  | [] => by simp [unitsToChars]
  | [c] => by
    have h := char_not_surrogate c
    simp only [List.map_cons, List.map_nil, unitsToChars]
    rw [if_neg h, Char.ofNat_toNat]
  | c1 :: c2 :: cs => by
    have h1 := char_not_surrogate c1
    simp only [List.map_cons, unitsToChars]
    rw [if_neg (by omega), if_neg (by omega), Char.ofNat_toNat]
    have := unitsToChars_map (c2 :: cs)
    simp only [List.map_cons] at this
    rw [this]

theorem parseStringBody_escapeList (s : String) (rest : List Char) :
    parseStringBody (escapeList s.data ++ quoteChar :: rest) = some (s.data, rest) := by
  simp only [parseStringBody, parseStrUnits_escapeList, unitsToChars_map]

/-! ### Lemmas: parsing serialized values -/

theorem string_mk_data (s : String) : String.mk s.data = s := rfl

theorem intToChars_ofNat (n : Nat) : intToChars (n : Int) = natToChars n := by
  rw [intToChars, if_neg (by omega), Int.natAbs_ofNat]

theorem skipWs_head (c : Char) (cs : List Char)
    (h : ¬ (c.toNat = 32 ∨ c.toNat = 9 ∨ c.toNat = 10 ∨ c.toNat = 13)) :
    skipWs (c :: cs) = c :: cs := by
  rw [skipWs.eq_def]
  simp only [if_neg h]

theorem digit_ne_char (c : Char) (hcb : 48 ≤ c.toNat ∧ c.toNat ≤ 57) (d : Char)
    (hd : d.toNat < 48 ∨ 57 < d.toNat) : ¬ c = d := fun he => by
  subst he
  omega

theorem natToChars_head (n : Nat) :
    ∃ c cs, natToChars n = c :: cs ∧ c.isDigit = true := by
  by_cases h0 : n = 0
  · subst h0
    exact ⟨digitChar 0, [], by simp [natToChars], digitChar_isDigit 0 (by omega)⟩
  · obtain ⟨c, cs, heq, _, hdig⟩ := natDigitsAux_head (n + 1) n h0 (n_lt_ten_pow n)
    exact ⟨c, cs, by simp [natToChars, h0, heq], hdig⟩

theorem parseValue_stringLit (fuel : Nat) (s : String) (rest : List Char) :
    parseValue (fuel + 1) (stringifyString s ++ rest) = some (Json.str s, rest) := by
  have hshape : stringifyString s ++ rest = quoteChar :: (escapeList s.data ++ quoteChar :: rest) := by
    simp [stringifyString, List.append_assoc]
  have hsb := parseStringBody_escapeList s rest
  rw [hshape]
  simp only [parseValue, show ¬ quoteChar = Char.ofNat 123 by decide,
    show ¬ quoteChar = Char.ofNat 91 by decide,
    ite_true, ite_false, if_true, if_false, eq_self_iff_true, hsb, string_mk_data]

theorem parseValue_natLit (fuel : Nat) (n : Nat) (rest : List Char)
    (hb : numBoundary rest = true) :
    parseValue (fuel + 1) (natToChars n ++ rest) = some (Json.num (n : Int), rest) := by
  obtain ⟨c, cs, heq, hdig⟩ := natToChars_head n
  have hcb := char_isDigit_bounds c hdig
  have hshape : natToChars n ++ rest = c :: (cs ++ rest) := by rw [heq]; rfl
  rw [hshape]
  simp only [parseValue, digit_ne_char c hcb (Char.ofNat 123) (by decide),
    digit_ne_char c hcb (Char.ofNat 91) (by decide),
    digit_ne_char c hcb quoteChar (by decide),
    digit_ne_char c hcb 't' (by decide),
    digit_ne_char c hcb 'f' (by decide),
    digit_ne_char c hcb 'n' (by decide),
    ite_true, ite_false, if_true, if_false]
  rw [show c :: (cs ++ rest) = natToChars n ++ rest from hshape.symm]
  have hnp := parseNumPart_natToChars n rest hb
  rw [hshape]
  simp only [parseNumber, digit_ne_char c hcb (Char.ofNat 45) (by decide), ite_true,
    ite_false, if_true, if_false]
  rw [show c :: (cs ++ rest) = natToChars n ++ rest from hshape.symm, hnp]

theorem parseMembers_step (fuel : Nat) (k : String) (v : Json) (body after2 : List Char)
    (acc : List (String × Json))
    (hv : parseValue fuel (skipWs body) = some (v, after2)) :
    parseMembers (fuel + 1) (stringifyString k ++ Char.ofNat 58 :: body) acc =
      (match skipWs after2 with
       | c3 :: rest4 =>
         if c3 = Char.ofNat 44 then parseMembers fuel (skipWs rest4) (insertField acc k v)
         else if c3 = Char.ofNat 125 then some (Json.obj (insertField acc k v), rest4)
         else none
       | [] => none) := by
  have hshape : stringifyString k ++ Char.ofNat 58 :: body =
      quoteChar :: (escapeList k.data ++ quoteChar :: (Char.ofNat 58 :: body)) := by
    simp [stringifyString, List.append_assoc]
  have hsb := parseStringBody_escapeList k (Char.ofNat 58 :: body)
  rw [hshape]
  simp only [parseMembers, ite_true, ite_false, if_true, if_false, eq_self_iff_true, hsb,
    string_mk_data, skipWs_head (Char.ofNat 58) body (by decide), hv]

theorem skipWs_stringify (s : String) (X : List Char) :
    skipWs (stringifyString s ++ X) = stringifyString s ++ X := by
  have hshape : stringifyString s ++ X = quoteChar :: (escapeList s.data ++ (quoteChar :: X)) := by
    simp [stringifyString, List.append_assoc]
  rw [hshape, skipWs_head quoteChar _ (by decide)]

theorem skipWs_natToChars (n : Nat) (X : List Char) :
    skipWs (natToChars n ++ X) = natToChars n ++ X := by
  obtain ⟨c, cs, heq, hdig⟩ := natToChars_head n
  have hcb := char_isDigit_bounds c hdig
  rw [heq]
  simp only [List.cons_append]
  exact skipWs_head c _ (by omega)

theorem parseValue_objStart (fuel : Nat) (k : String) (X : List Char) :
    parseValue (fuel + 1) (Char.ofNat 123 :: (stringifyString k ++ X)) =
      parseMembers fuel (stringifyString k ++ X) [] := by
  have hshape : stringifyString k ++ X = quoteChar :: (escapeList k.data ++ (quoteChar :: X)) := by
    simp [stringifyString, List.append_assoc]
  rw [hshape]
  simp only [parseValue, eq_self_iff_true, ite_true, if_true,
    skipWs_head quoteChar _ (by decide),
    show ¬ quoteChar = Char.ofNat 125 by decide, ite_false, if_false]

theorem parseMembers_step_comma (fuel : Nat) (k : String) (v : Json)
    (body rest2 : List Char) (acc : List (String × Json))
    (hv : parseValue fuel (skipWs body) = some (v, Char.ofNat 44 :: rest2)) :
    parseMembers (fuel + 1) (stringifyString k ++ Char.ofNat 58 :: body) acc =
      parseMembers fuel (skipWs rest2) (insertField acc k v) := by
  rw [parseMembers_step fuel k v body _ acc hv, skipWs_head (Char.ofNat 44) _ (by decide)]
  simp only [eq_self_iff_true, ite_true, if_true]

theorem parseMembers_step_brace (fuel : Nat) (k : String) (v : Json)
    (body rest2 : List Char) (acc : List (String × Json))
    (hv : parseValue fuel (skipWs body) = some (v, Char.ofNat 125 :: rest2)) :
    parseMembers (fuel + 1) (stringifyString k ++ Char.ofNat 58 :: body) acc =
      some (Json.obj (insertField acc k v), rest2) := by
  rw [parseMembers_step fuel k v body _ acc hv, skipWs_head (Char.ofNat 125) _ (by decide)]
  simp only [show ¬ Char.ofNat 125 = Char.ofNat 44 by decide, ite_false, if_false,
    eq_self_iff_true, ite_true, if_true]

theorem parseValue_payload (fuel : Nat) (i e u : String) (n : Nat) (rest : List Char) :
    parseValue (fuel + 6)
      (stringifyValue (Json.obj [("id", Json.str i), ("email", Json.str e),
        ("username", Json.str u), ("iat", Json.num (n : Int))]) ++ rest) =
      some (Json.obj [("id", Json.str i), ("email", Json.str e),
        ("username", Json.str u), ("iat", Json.num (n : Int))], rest) := by
  have htext : stringifyValue (Json.obj [("id", Json.str i), ("email", Json.str e),
      ("username", Json.str u), ("iat", Json.num (n : Int))]) ++ rest =
      Char.ofNat 123 :: (stringifyString "id" ++ Char.ofNat 58 ::
        (stringifyString i ++ Char.ofNat 44 ::
        (stringifyString "email" ++ Char.ofNat 58 ::
        (stringifyString e ++ Char.ofNat 44 ::
        (stringifyString "username" ++ Char.ofNat 58 ::
        (stringifyString u ++ Char.ofNat 44 ::
        (stringifyString "iat" ++ Char.ofNat 58 ::
        (natToChars n ++ Char.ofNat 125 :: rest)))))))) := by
    simp [stringifyValue, stringifyFields, intToChars_ofNat, List.append_assoc]
  rw [htext]
  set M4 : List Char :=
    stringifyString "iat" ++ Char.ofNat 58 :: (natToChars n ++ Char.ofNat 125 :: rest) with hM4
  set M3 : List Char :=
    stringifyString "username" ++ Char.ofNat 58 :: (stringifyString u ++ Char.ofNat 44 :: M4)
    with hM3
  set M2 : List Char :=
    stringifyString "email" ++ Char.ofNat 58 :: (stringifyString e ++ Char.ofNat 44 :: M3)
    with hM2
  rw [parseValue_objStart (fuel + 5)]
  have hv1 : parseValue (fuel + 4) (skipWs (stringifyString i ++ Char.ofNat 44 :: M2)) =
      some (Json.str i, Char.ofNat 44 :: M2) := by
    rw [skipWs_stringify]
    exact parseValue_stringLit (fuel + 3) i (Char.ofNat 44 :: M2)
  rw [parseMembers_step_comma (fuel + 4) "id" (Json.str i) _ _ _ hv1, hM2, skipWs_stringify]
  have hv2 : parseValue (fuel + 3) (skipWs (stringifyString e ++ Char.ofNat 44 :: M3)) =
      some (Json.str e, Char.ofNat 44 :: M3) := by
    rw [skipWs_stringify]
    exact parseValue_stringLit (fuel + 2) e (Char.ofNat 44 :: M3)
  rw [parseMembers_step_comma (fuel + 3) "email" (Json.str e) _ _ _ hv2, hM3, skipWs_stringify]
  have hv3 : parseValue (fuel + 2) (skipWs (stringifyString u ++ Char.ofNat 44 :: M4)) =
      some (Json.str u, Char.ofNat 44 :: M4) := by
    rw [skipWs_stringify]
    exact parseValue_stringLit (fuel + 1) u (Char.ofNat 44 :: M4)
  rw [parseMembers_step_comma (fuel + 2) "username" (Json.str u) _ _ _ hv3, hM4, skipWs_stringify]
  have hv4 : parseValue (fuel + 1)
      (skipWs (natToChars n ++ Char.ofNat 125 :: rest)) =
      some (Json.num (n : Int), Char.ofNat 125 :: rest) := by
    rw [skipWs_natToChars]
    exact parseValue_natLit fuel n (Char.ofNat 125 :: rest)
      (by simp only [numBoundary]; decide)
  rw [parseMembers_step_brace (fuel + 1) "iat" (Json.num (n : Int)) _ _ _ hv4]
  simp only [insertField,
    show ¬ ("id" : String) = "email" by decide,
    show ¬ ("id" : String) = "username" by decide,
    show ¬ ("id" : String) = "iat" by decide,
    show ¬ ("email" : String) = "username" by decide,
    show ¬ ("email" : String) = "iat" by decide,
    show ¬ ("username" : String) = "iat" by decide,
    ite_false, if_false]

theorem jsonParse_payload (i e u : String) (n : Nat) :
    jsonParse (jsonStringify (Json.obj [("id", Json.str i), ("email", Json.str e),
      ("username", Json.str u), ("iat", Json.num (n : Int))])) =
      some (Json.obj [("id", Json.str i), ("email", Json.str e),
        ("username", Json.str u), ("iat", Json.num (n : Int))]) := by
  set v := Json.obj [("id", Json.str i), ("email", Json.str e),
    ("username", Json.str u), ("iat", Json.num (n : Int))] with hv
  have hdata : (jsonStringify v).data = stringifyValue v := rfl
  have hhead : ∃ tail, stringifyValue v = Char.ofNat 123 :: tail := by
    rw [hv]
    exact ⟨_, rfl⟩
  obtain ⟨tail, htail⟩ := hhead
  have hlen : 5 ≤ (stringifyValue v).length := by
    have h1 := parseValue_payload 0 i e u n []
    rw [hv]
    simp only [stringifyValue, stringifyFields, List.length_cons, List.length_append,
      stringifyString, intToChars_ofNat]
    omega
  have hskip : skipWs (stringifyValue v) = stringifyValue v := by
    rw [htail]
    exact skipWs_head (Char.ofNat 123) tail (by decide)
  have happ : stringifyValue v = stringifyValue v ++ [] := by simp
  unfold jsonParse jsonParseChars
  rw [hdata, hskip]
  rw [show (stringifyValue v).length + 1 = ((stringifyValue v).length - 5) + 6 by omega]
  rw [show parseValue ((stringifyValue v).length - 5 + 6) (stringifyValue v) =
      parseValue ((stringifyValue v).length - 5 + 6) (stringifyValue v ++ []) by rw [← happ]]
  rw [hv, parseValue_payload ((stringifyValue v).length - 5) i e u n []]
  simp [skipWs]

/-! ### Lemmas: wire format of generated tokens -/

theorem wordBytes_lt (w : Nat) : ∀ b ∈ wordBytes w, b < 256 := by
  intro b hb
  simp only [wordBytes, List.mem_cons, List.not_mem_nil, or_false] at hb
  rcases hb with rfl | rfl | rfl | rfl <;> omega

theorem sha256_bytes_lt (msg : List Nat) : ∀ b ∈ sha256 msg, b < 256 := by
  intro b hb
  simp only [sha256, List.mem_append] at hb
  rcases hb with ((((((hb | hb) | hb) | hb) | hb) | hb) | hb) | hb <;>
    exact wordBytes_lt _ b hb

theorem sha256_ne_nil (msg : List Nat) : sha256 msg ≠ [] := by
  simp [sha256, wordBytes]

theorem strBytes_lt (s : String) : ∀ b ∈ strBytes s, b < 256 :=
  utf8Encode_bytes_lt s.data

theorem bytesToStr_strBytes (s : String) : bytesToStr (strBytes s) = s := by
  rw [strBytes, bytesToStr_utf8Encode, string_mk_data]

theorem stringifyValue_obj_ne_nil (fs : List (String × Json)) :
    stringifyValue (Json.obj fs) ≠ [] := by
  simp [stringifyValue]

theorem jsonStringify_obj_data_ne_nil (fs : List (String × Json)) :
    (jsonStringify (Json.obj fs)).data ≠ [] := by
  show stringifyValue (Json.obj fs) ≠ []
  exact stringifyValue_obj_ne_nil fs

theorem headerSegment_ne_nil : headerSegment ≠ [] := by
  apply base64EncodeList_ne_nil
  rw [strBytes, Ne, utf8Encode_eq_nil_iff]
  exact jsonStringify_obj_data_ne_nil _

theorem payloadSegment_ne_nil (user : UserRec) (iat : Nat) :
    payloadSegment user iat ≠ [] := by
  apply base64EncodeList_ne_nil
  rw [strBytes, Ne, utf8Encode_eq_nil_iff]
  exact jsonStringify_obj_data_ne_nil _

theorem signatureSegment_ne_nil (env : Option String) (user : UserRec) (iat : Nat) :
    signatureSegment env user iat ≠ [] := by
  apply base64EncodeList_ne_nil
  simp only [hmacSha256]
  exact sha256_ne_nil _

theorem headerSegment_no_dot : '.' ∉ headerSegment := by
  intro h
  exact base64EncodeList_no_dot _ (strBytes_lt _) '.' h rfl

theorem payloadSegment_no_dot (user : UserRec) (iat : Nat) :
    '.' ∉ payloadSegment user iat := by
  intro h
  exact base64EncodeList_no_dot _ (strBytes_lt _) '.' h rfl

theorem signatureSegment_no_dot (env : Option String) (user : UserRec) (iat : Nat) :
    '.' ∉ signatureSegment env user iat := by
  intro h
  refine base64EncodeList_no_dot _ ?_ '.' h rfl
  simp only [hmacSha256]
  exact sha256_bytes_lt _

theorem generateToken_data (env : Option String) (nowMs : Nat) (user : UserRec) :
    (generateToken env nowMs user).data =
      headerSegment ++ '.' ::
        (payloadSegment user (nowMs / 1000) ++ '.' ::
          signatureSegment env user (nowMs / 1000)) := by
  simp only [generateToken, headerSegment, payloadSegment, signatureSegment,
    String.data_append, base64Encode, show ("." : String).data = ['.'] from rfl]
  simp [List.append_assoc]

theorem generateToken_split (env : Option String) (nowMs : Nat) (user : UserRec) :
    splitOnChar '.' (generateToken env nowMs user).data =
      [headerSegment, payloadSegment user (nowMs / 1000),
       signatureSegment env user (nowMs / 1000)] := by
  rw [generateToken_data,
    splitOnChar_append '.' _ _ headerSegment_no_dot,
    splitOnChar_append '.' _ _ (payloadSegment_no_dot user (nowMs / 1000)),
    splitOnChar_no_sep '.' _ (signatureSegment_no_dot env user (nowMs / 1000))]

/-! ### The round trip of the token component -/

theorem userClaims_eq (user : UserRec) (iat : Nat) (i eml un : String)
    (hid : jsOrStr user._id user.id = some i)
    (he : user.email = some eml)
    (hu : user.username = some un) :
    userClaims user iat =
      [("id", Json.str i), ("email", Json.str eml), ("username", Json.str un),
       ("iat", Json.num (iat : Int))] := by
  simp [userClaims, hid, he, hu]

theorem decodePayload_payloadSegment (user : UserRec) (iat : Nat) (i eml un : String)
    (hid : jsOrStr user._id user.id = some i)
    (he : user.email = some eml)
    (hu : user.username = some un) :
    decodePayload (payloadSegment user iat) =
      some (Json.obj [("id", Json.str i), ("email", Json.str eml),
        ("username", Json.str un), ("iat", Json.num (iat : Int))]) := by
  rw [decodePayload, payloadSegment,
    base64_decode_encode _ (strBytes_lt _), bytesToStr_strBytes,
    userClaims_eq user iat i eml un hid he hu]
  exact jsonParse_payload i eml un iat

theorem verifyToken_generateToken (env : Option String) (nowMs : Nat) (user : UserRec)
    (i eml un : String)
    (hid : jsOrStr user._id user.id = some i)
    (he : user.email = some eml)
    (hu : user.username = some un) :
    verifyToken (generateToken env nowMs user) =
      Json.obj [("id", Json.str i), ("email", Json.str eml), ("username", Json.str un),
        ("iat", Json.num ((nowMs / 1000 : Nat) : Int))] := by
  rw [verifyToken, generateToken_split]
  simp only [List.getD, List.get?, Option.getD_some]
  rw [if_neg (by
    push_neg
    exact ⟨headerSegment_ne_nil, payloadSegment_ne_nil user _,
      signatureSegment_ne_nil env user _⟩)]
  rw [decodePayload_payloadSegment user (nowMs / 1000) i eml un hid he hu]

/-! ### Lemmas: verifyToken on arbitrary tokens and the gate -/

theorem verifyToken_parts (t : String) (h p s : List Char) (rest : List (List Char))
    (hsplit : splitOnChar '.' t.data = h :: p :: s :: rest)
    (hh : h ≠ []) (hp : p ≠ []) (hs : s ≠ []) :
    verifyToken t = (match decodePayload p with | some v => v | none => Json.null) := by
  rw [verifyToken, hsplit]
  simp only [List.getD, List.get?, Option.getD_some]
  rw [if_neg (by push_neg; exact ⟨hh, hp, hs⟩)]

theorem verifyToken_null_of_badParts (t : String)
    (hbad : ∀ h p s rest, splitOnChar '.' t.data = h :: p :: s :: rest →
      h = [] ∨ p = [] ∨ s = []) :
    verifyToken t = Json.null := by
  rw [verifyToken]
  rcases hps : splitOnChar '.' t.data with _ | ⟨h, _ | ⟨p, _ | ⟨s, rest⟩⟩⟩
  · simp [List.getD]
  · simp [List.getD]
  · simp [List.getD]
  · simp only [List.getD, List.get?, Option.getD_some]
    rw [if_pos (hbad h p s rest hps)]

theorem gate_accepts (t : String) (c : Json) (hc : verifyToken t = c)
    (hfalsy : jsFalsy c = false) :
    authMiddleware ⟨HeadersVal.obj (some ("Bearer " ++ t))⟩ = GateOutcome.next c := by
  have hpref : "Bearer ".data.isPrefixOf ("Bearer " ++ t).data = true := by
    rw [String.data_append]
    exact List.isPrefixOf_iff_prefix.mpr (List.prefix_append _ _)
  have hdrop : ("Bearer " ++ t).data.drop 7 = t.data := by
    rw [String.data_append, show (7 : Nat) = ("Bearer ".data).length from rfl]
    exact List.drop_left _ _
  rw [authMiddleware, authMiddlewareBody]
  simp only [hpref, ite_true, if_true, hdrop, string_mk_data, hc, hfalsy,
    Bool.false_eq_true, ite_false, if_false]

/-! ### The claims -/

/-- C1.  Round trip: for every user record with non-empty id, email and
username fields, verifyToken of generateToken returns a non-null claims
object whose id, email and username equal the input's; the id is user._id,
falling back to user.id when _id is absent. -/
theorem claim1_roundTrip (env : Option String) (nowMs : Nat) (user : UserRec)
    (i eml un : String)
    (hid : user._id = some i ∨ (user._id = none ∧ user.id = some i))
    (hi : i ≠ "") (he : user.email = some eml) (he2 : eml ≠ "")
    (hu : user.username = some un) (hu2 : un ≠ "") :
    verifyToken (generateToken env nowMs user) ≠ Json.null ∧
    ∃ fields, verifyToken (generateToken env nowMs user) = Json.obj fields ∧
      List.lookup "id" fields = some (Json.str i) ∧
      List.lookup "email" fields = some (Json.str eml) ∧
      List.lookup "username" fields = some (Json.str un) := by
  have hjsor : jsOrStr user._id user.id = some i := by
    rcases hid with h | ⟨h1, h2⟩
    · simp [jsOrStr, h, hi]
    · simp [jsOrStr, h1, h2]
  have hv := verifyToken_generateToken env nowMs user i eml un hjsor he hu
  rw [hv]
  exact ⟨fun hcontra => Json.noConfusion hcontra, _, rfl, rfl, rfl, rfl⟩

/-- Witness for C1 at a concrete user record. -/
theorem claim1_roundTrip_witness :
    verifyToken (generateToken none 0 ⟨some "u1", none, some "a@b.com", some "alice"⟩) ≠
      Json.null ∧
    ∃ fields,
      verifyToken (generateToken none 0 ⟨some "u1", none, some "a@b.com", some "alice"⟩) =
        Json.obj fields ∧
      List.lookup "id" fields = some (Json.str "u1") ∧
      List.lookup "email" fields = some (Json.str "a@b.com") ∧
      List.lookup "username" fields = some (Json.str "alice") :=
  claim1_roundTrip none 0 ⟨some "u1", none, some "a@b.com", some "alice"⟩
    "u1" "a@b.com" "alice" (Or.inl rfl) (by decide) rfl (by decide) rfl (by decide)

/-- C2.  Signature independence: when the dot-split of a token has exactly
three non-empty segments and the payload segment decodes, replacing the
signature segment by any other non-empty dot-free segment leaves the
verifyToken result unchanged; the signature is never recomputed or
compared. -/
theorem claim2_signatureIndependence (t : String) (h p s s2 : List Char)
    (hsplit : splitOnChar '.' t.data = [h, p, s])
    (hh : h ≠ []) (hp : p ≠ []) (hs : s ≠ [])
    (hdec : (decodePayload p).isSome = true)
    (hs2 : s2 ≠ []) (hs2d : '.' ∉ s2) :
    verifyToken (String.mk (h ++ '.' :: (p ++ '.' :: s2))) = verifyToken t := by
  have hnoh : '.' ∉ h := splitOnChar_parts_no_sep '.' t.data h (by rw [hsplit]; simp)
  have hnop : '.' ∉ p := splitOnChar_parts_no_sep '.' t.data p (by rw [hsplit]; simp)
  have hsplit2 : splitOnChar '.' (String.mk (h ++ '.' :: (p ++ '.' :: s2))).data =
      [h, p, s2] := by
    show splitOnChar '.' (h ++ '.' :: (p ++ '.' :: s2)) = _
    rw [splitOnChar_append '.' _ _ hnoh, splitOnChar_append '.' _ _ hnop,
      splitOnChar_no_sep '.' _ hs2d]
  rw [verifyToken_parts t h p s [] hsplit hh hp hs,
    verifyToken_parts (String.mk (h ++ '.' :: (p ++ '.' :: s2))) h p s2 [] hsplit2 hh hp hs2]

/-- Witness for C2 at a concrete token and replacement signature. -/
theorem claim2_signatureIndependence_witness :
    verifyToken (String.mk (['a'] ++ '.' :: (['e', '3', '0'] ++ '.' :: ['z']))) =
      verifyToken "a.e30.b" :=
  claim2_signatureIndependence "a.e30.b" ['a'] ['e', '3', '0'] ['b'] ['z']
    rfl (by decide) (by decide) (by decide) rfl (by decide) (by decide)

/-- C3.  Gate acceptance: a request whose Authorization header is the
7-character Bearer scheme followed by a token whose verification yields a
non-falsy claims value ends in exactly one call of the next handler with
those claims attached under the user key and no response; in particular a
token issued for the test user yields user.id and user.email equal to the
inputs.  The GateOutcome type makes next and response mutually
exclusive. -/
theorem claim3_gateAccepts :
    (∀ (t : String) (c : Json), verifyToken t = c → jsFalsy c = false →
      authMiddleware ⟨HeadersVal.obj (some ("Bearer " ++ t))⟩ = GateOutcome.next c) ∧
    (∀ (env : Option String) (nowMs : Nat),
      ∃ fields,
        authMiddleware ⟨HeadersVal.obj (some ("Bearer " ++ generateToken env nowMs
          ⟨some "507f1f77bcf86cd799439011", none, some "test@example.com",
            some "testuser"⟩))⟩ = GateOutcome.next (Json.obj fields) ∧
        List.lookup "id" fields = some (Json.str "507f1f77bcf86cd799439011") ∧
        List.lookup "email" fields = some (Json.str "test@example.com")) := by
  constructor
  · exact fun t c hc hf => gate_accepts t c hc hf
  · intro env nowMs
    have hv := verifyToken_generateToken env nowMs
      ⟨some "507f1f77bcf86cd799439011", none, some "test@example.com", some "testuser"⟩
      "507f1f77bcf86cd799439011" "test@example.com" "testuser" (by decide) rfl rfl
    exact ⟨_, gate_accepts _ _ hv rfl, rfl, rfl⟩

/-- Witness for C3 at a concrete truthy token. -/
theorem claim3_gateAccepts_witness :
    authMiddleware ⟨HeadersVal.obj (some ("Bearer " ++ "a.e30.b"))⟩ =
      GateOutcome.next (Json.obj []) :=
  claim3_gateAccepts.1 "a.e30.b" (Json.obj []) rfl rfl

/-- C4.  Gate header rejection: a request whose Authorization header is
absent or does not start with the literal case-sensitive Bearer-space
scheme is answered with status 401 and the message Missing or invalid
authorization header, and the next handler is not called. -/
theorem claim4_gateRejectsHeader (auth : Option String)
    (hno : ∀ h, auth = some h → "Bearer ".data.isPrefixOf h.data = false) :
    authMiddleware ⟨HeadersVal.obj auth⟩ =
      GateOutcome.response 401 "Missing or invalid authorization header" := by
  cases auth with
  | none => rfl
  | some h =>
    rw [authMiddleware, authMiddlewareBody]
    simp only [hno h rfl, Bool.false_eq_true, ite_false, if_false]

/-- Witness for C4 at the Basic-scheme header. -/
theorem claim4_gateRejectsHeader_witness :
    authMiddleware ⟨HeadersVal.obj (some "Basic xyz")⟩ =
      GateOutcome.response 401 "Missing or invalid authorization header" :=
  claim4_gateRejectsHeader (some "Basic xyz")
    (fun h hh => by cases hh; decide)

/-- C5 counterexample: a token of four dot-segments whose first three are
non-empty and whose payload decodes is not rejected: verifyToken returns
the decoded (empty-object) payload although the dot-split does not have
exactly three segments. -/
theorem claim5_counterexample :
    verifyToken "a.e30.b.c" = Json.obj [] ∧
    splitOnChar '.' ("a.e30.b.c").data = [['a'], ['e', '3', '0'], ['b'], ['c']] :=
  ⟨rfl, rfl⟩

/-- C5 amended: verifyToken returns null unless the dot-split has at least
three segments of which the first three are non-empty (segments past the
third are ignored by the destructuring); in particular the empty string,
a one-segment token and a two-segment token verify to null without
throwing. -/
theorem claim5_segments :
    (∀ (t : String),
      (∀ h p s rest, splitOnChar '.' t.data = h :: p :: s :: rest →
        h = [] ∨ p = [] ∨ s = []) →
      verifyToken t = Json.null) ∧
    verifyToken "" = Json.null ∧
    verifyToken "onlyonepart" = Json.null ∧
    verifyToken "two.parts" = Json.null :=
  ⟨fun t hbad => verifyToken_null_of_badParts t hbad, rfl, rfl, rfl⟩

/-- Witness for C5 amended at a four-segment token with an empty payload
segment. -/
theorem claim5_segments_witness : verifyToken "a..b.c" = Json.null :=
  claim5_segments.1 "a..b.c" (by
    intro h p s rest heq
    rw [show splitOnChar '.' ("a..b.c").data = [['a'], [], ['b'], ['c']] from rfl] at heq
    simp only [List.cons.injEq] at heq
    exact Or.inr (Or.inl heq.2.1.symm))

/-- C6.  Verifier totality: verifyToken is a total Lean function on
strings (it is defined for every input, the embedding of a function that
never throws), and whenever the payload segment does not base64-decode to
parseable JSON, it returns null rather than raising. -/
theorem claim6_nullOnParseFailure (t : String) (h p s : List Char)
    (rest : List (List Char))
    (hsplit : splitOnChar '.' t.data = h :: p :: s :: rest)
    (hh : h ≠ []) (hp : p ≠ []) (hs : s ≠ [])
    (hfail : decodePayload p = none) :
    verifyToken t = Json.null := by
  rw [verifyToken_parts t h p s rest hsplit hh hp hs, hfail]

/-- Witness for C6 at a token whose payload segment holds no base64
content. -/
theorem claim6_nullOnParseFailure_witness : verifyToken "a.!!!.c" = Json.null :=
  claim6_nullOnParseFailure "a.!!!.c" ['a'] ['!', '!', '!'] ['c'] []
    rfl (by decide) (by decide) (by decide) rfl

/-- C7.  Fail-closed gate: the middleware is a total function whose every
run ends in exactly one outcome, a call of the next handler or a single
401 response, and an exception in the body is caught and converted to a
401 Authentication failed response. -/
theorem claim7_failClosed (req : JsRequest) :
    ((∃ c, authMiddleware req = GateOutcome.next c ∧ jsFalsy c = false) ∨
      (∃ msg, authMiddleware req = GateOutcome.response 401 msg ∧
        (msg = "Missing or invalid authorization header" ∨ msg = "Invalid token" ∨
          msg = "Authentication failed"))) ∧
    (∀ e, authMiddlewareBody req = Except.error e →
      authMiddleware req = GateOutcome.response 401 "Authentication failed") := by
  constructor
  · obtain ⟨headers⟩ := req
    cases headers with
    | undef => exact Or.inr ⟨"Authentication failed", rfl, by tauto⟩
    | obj auth =>
      cases auth with
      | none => exact Or.inr ⟨"Missing or invalid authorization header", rfl, by tauto⟩
      | some h =>
        rw [authMiddleware, authMiddlewareBody]
        by_cases hpre : "Bearer ".data.isPrefixOf h.data
        · simp only [hpre, ite_true, if_true]
          by_cases hf : jsFalsy (verifyToken (String.mk (h.data.drop 7)))
          · simp only [hf, ite_true, if_true]
            exact Or.inr ⟨"Invalid token", rfl, by tauto⟩
          · simp only [hf, Bool.false_eq_true, ite_false, if_false]
            exact Or.inl ⟨_, rfl, by simpa using hf⟩
        · simp only [hpre, Bool.false_eq_true, ite_false, if_false]
          exact Or.inr ⟨"Missing or invalid authorization header", rfl, by tauto⟩
  · intro e he
    rw [authMiddleware, he]

/-- Witness for C7 at a request whose headers object is undefined, the one
shape that makes the body throw. -/
theorem claim7_failClosed_witness :
    authMiddleware ⟨HeadersVal.undef⟩ =
      GateOutcome.response 401 "Authentication failed" :=
  (claim7_failClosed ⟨HeadersVal.undef⟩).2 "TypeError" rfl

/-- C8.  Issuer wire format: every generated token splits on the dot into
exactly the three non-empty segments: base64 of the JSON serialization of
the fixed header, base64 of the JSON claims with the issued-at in integer
seconds, and base64 of the HMAC-SHA256 of header-dot-payload keyed with
the configured secret or the fixed development default. -/
theorem claim8_wireFormat (env : Option String) (nowMs : Nat) (user : UserRec) :
    splitOnChar '.' (generateToken env nowMs user).data =
      [base64EncodeList (strBytes (jsonStringify
          (Json.obj [("alg", Json.str "HS256"), ("typ", Json.str "JWT")]))),
       base64EncodeList (strBytes (jsonStringify
          (Json.obj (userClaims user (nowMs / 1000))))),
       base64EncodeList (hmacSha256 (strBytes (jsOrDefault env "test-secret-key"))
         (strBytes (base64Encode (strBytes (jsonStringify headerJson)) ++ "." ++
           base64Encode (strBytes (jsonStringify
             (Json.obj (userClaims user (nowMs / 1000))))))))] ∧
    headerSegment ≠ [] ∧ payloadSegment user (nowMs / 1000) ≠ [] ∧
    signatureSegment env user (nowMs / 1000) ≠ [] :=
  ⟨generateToken_split env nowMs user, headerSegment_ne_nil,
    payloadSegment_ne_nil user _, signatureSegment_ne_nil env user _⟩

/-- C9.  Header-segment independence: verifyToken never inspects the
first dot-segment beyond requiring it non-empty, so two tokens with
non-empty first segments and identical second and third segments verify
identically; alg and typ are never validated. -/
theorem claim9_headerIndependence (t1 t2 : String)
    (h1 : (splitOnChar '.' t1.data).getD 0 [] ≠ [])
    (h2 : (splitOnChar '.' t2.data).getD 0 [] ≠ [])
    (hp : (splitOnChar '.' t1.data).getD 1 [] = (splitOnChar '.' t2.data).getD 1 [])
    (hs : (splitOnChar '.' t1.data).getD 2 [] = (splitOnChar '.' t2.data).getD 2 []) :
    verifyToken t1 = verifyToken t2 := by
  rw [verifyToken, verifyToken, ← hp, ← hs]
  by_cases hpe : (splitOnChar '.' t1.data).getD 1 [] = []
  · rw [if_pos (by tauto), if_pos (by tauto)]
  · by_cases hse : (splitOnChar '.' t1.data).getD 2 [] = []
    · rw [if_pos (by tauto), if_pos (by tauto)]
    · rw [if_neg (by push_neg; exact ⟨h1, hpe, hse⟩),
        if_neg (by push_neg; exact ⟨h2, hpe, hse⟩)]

/-- Witness for C9: a token with a non-base64 header segment verifies the
same as one with a plain header segment. -/
theorem claim9_headerIndependence_witness :
    verifyToken "!!!.e30.s" = verifyToken "a.e30.s" :=
  claim9_headerIndependence "!!!.e30.s" "a.e30.s"
    (by decide) (by decide) rfl rfl

/-- C10.  Raw-JSON return shape: on a token with three non-empty leading
dot-segments whose payload parses, verifyToken returns the parsed JSON
value with no shape restriction: a payload of false returns false, of 123
returns the number 123, and of null returns null exactly as a failure
does; the gate answers 401 Invalid token on every such falsy value. -/
theorem claim10_rawJson :
    (∀ (t : String) (h p s : List Char) (rest : List (List Char)),
      splitOnChar '.' t.data = h :: p :: s :: rest →
      h ≠ [] → p ≠ [] → s ≠ [] →
      ∀ v, decodePayload p = some v → verifyToken t = v) ∧
    verifyToken "a.ZmFsc2U=.c" = Json.bool false ∧
    verifyToken "a.MTIz.c" = Json.num 123 ∧
    verifyToken "a.bnVsbA==.c" = Json.null ∧
    authMiddleware ⟨HeadersVal.obj (some "Bearer a.ZmFsc2U=.c")⟩ =
      GateOutcome.response 401 "Invalid token" := by
  refine ⟨?_, rfl, rfl, rfl, rfl⟩
  intro t h p s rest hsplit hh hp hs v hv
  rw [verifyToken_parts t h p s rest hsplit hh hp hs, hv]

/-- Witness for C10 at a token whose payload is the empty JSON object. -/
theorem claim10_rawJson_witness : verifyToken "x.e30.y" = Json.obj [] :=
  claim10_rawJson.1 "x.e30.y" ['x'] ['e', '3', '0'] ['y'] []
    rfl (by decide) (by decide) (by decide) (Json.obj []) rfl

end MernAuth
